import Mathlib

/-!
Shallow embedding of keriyaki/Even3-Downloader
(src/even3_gui_downloader_fast.py), a bulk PDF downloader for Even3
conference proceedings, together with proofs about the embedded code.

The pure string utilities are translated function-by-function.  The
network and the filesystem are modelled explicitly: the filesystem is a
finite map from path to file size (the code only ever tests existence
and byte counts), HTTP responses are oracles supplied as parameters, and
exceptions are `Except` values.  The concurrent worker pool is
linearised: jobs execute in completion order, which is quantified over
by taking the URL list in an arbitrary order.
-/

namespace Even3

/-! ## Filesystem model: a finite map from path to size in bytes -/

abbrev Docs := List (String × Nat)

def lookupFile : Docs → String → Option Nat
  | [], _ => none
  | (q, n) :: rest, p => if q = p then some n else lookupFile rest p

def setFile (docs : Docs) (p : String) (n : Nat) : Docs :=
  match docs with
  | [] => [(p, n)]
  | (q, m) :: rest => if q = p then (p, n) :: rest else (q, m) :: setFile rest p n

def delFile (docs : Docs) (p : String) : Docs :=
  match docs with
  | [] => []
  | (q, m) :: rest => if q = p then delFile rest p else (q, m) :: delFile rest p

/-- Models `file_path.exists() and file_path.stat().st_size > 0`. -/
def fileNonempty (docs : Docs) (p : String) : Bool :=
  match lookupFile docs p with
  | some n => 0 < n
  | none => false

/-! ## Python-style character and string helpers -/

/-- Characters replaced by `_` in `safe_filename` (regex `[\\/*?\"<>|:]+`). -/
def illegalChar (c : Char) : Bool :=
  ['\\', '/', '*', '?', '"', '<', '>', '|', ':'].contains c

/-- Python whitespace as matched by `\s` (ASCII part) and stripped by `str.strip()`. -/
def isPySpace (c : Char) : Bool :=
  c = ' ' || c = '\t' || c = '\n' || c = '\r' || c = '\x0b' || c = '\x0c'

/-- Replace every maximal run of characters satisfying `p` by the single
character `repl`; models `re.sub(r"[...]+", repl, s)`.  The boolean flag
records whether the previous character was inside a run. -/
def collapseRuns (p : Char → Bool) (repl : Char) : Bool → List Char → List Char
  | _, [] => []
  | inRun, c :: cs =>
    if p c then
      if inRun then collapseRuns p repl true cs
      else repl :: collapseRuns p repl true cs
    else c :: collapseRuns p repl false cs

def pyLstrip (p : Char → Bool) (l : List Char) : List Char :=
  l.dropWhile p

def pyRstrip (p : Char → Bool) (l : List Char) : List Char :=
  (l.reverse.dropWhile p).reverse

def pyStrip (p : Char → Bool) (l : List Char) : List Char :=
  pyRstrip p (pyLstrip p l)

/-- Python slice `l[:n]`, including the negative-index convention. -/
def pySlice (l : List Char) (n : Int) : List Char :=
  if 0 ≤ n then l.take n.toNat else l.take (l.length - (-n).toNat)

/-- Translation of `safe_filename(s, max_len=140)`. -/
def safe_filename (s : String) (max_len : Int := 140) : String :=
  let l1 := collapseRuns illegalChar '_' false s.data
  let l2 := pyStrip isPySpace (collapseRuns isPySpace ' ' false l1)
  let l3 := if l2.isEmpty then "arquivo".data else l2
  let l4 := if (l3.length : Int) > max_len then pyRstrip isPySpace (pySlice l3 max_len) else l3
  String.mk l4

/-! ## URL parsing helpers -/

/-- If `pre` is a prefix of `l`, return the remainder. -/
def dropStart : List Char → List Char → Option (List Char)
  | [], l => some l
  | _ :: _, [] => none
  | a :: as, b :: bs => if a = b then dropStart as bs else none

/-- Drop everything up to and including the first `://`, if present. -/
def afterScheme : List Char → Option (List Char)
  | [] => none
  | c :: cs =>
    if c = ':' then
      match dropStart "//".data cs with
      | some rest => some rest
      | none => afterScheme cs
    else afterScheme cs

/-- Path component of `urlparse(u)`, modelled for the absolute http(s)
URLs this program handles: drop `scheme://netloc`, cut at `?` or `#`. -/
def pyUrlPath (u : String) : String :=
  let cutQF := fun (l : List Char) => l.takeWhile (fun c => c ≠ '?' && c ≠ '#')
  match afterScheme u.data with
  | none => String.mk (cutQF u.data)
  | some after =>
    let pathOn := after.dropWhile (fun c => c ≠ '/' && c ≠ '?' && c ≠ '#')
    match pathOn with
    | '/' :: _ => String.mk (cutQF pathOn)
    | _ => ""

/-- Python `str.strip("/")`. -/
def stripSlashes (l : List Char) : List Char :=
  ((l.dropWhile (· = '/')).reverse.dropWhile (· = '/')).reverse

/-- Last element of `path.split("/")`. -/
def lastSegment (l : List Char) : List Char :=
  (l.reverse.takeWhile (· ≠ '/')).reverse

def hexVal? (c : Char) : Option Nat :=
  if '0' ≤ c ∧ c ≤ '9' then some (c.toNat - '0'.toNat)
  else if 'a' ≤ c ∧ c ≤ 'f' then some (c.toNat - 'a'.toNat + 10)
  else if 'A' ≤ c ∧ c ≤ 'F' then some (c.toNat - 'A'.toNat + 10)
  else none

/-- Percent-decoding as done by `urllib.parse.unquote`, modelled at the
byte-for-character level (the inputs in this program are ASCII). -/
def pyUnquote : List Char → List Char
  | '%' :: a :: b :: rest =>
    match hexVal? a, hexVal? b with
    | some ha, some hb => Char.ofNat (16 * ha + hb) :: pyUnquote rest
    | _, _ => '%' :: pyUnquote (a :: b :: rest)
  | c :: rest => c :: pyUnquote rest
  | [] => []

/-- Python `str.replace(old, new)` for a non-empty `old`: leftmost,
non-overlapping.  Written with structural fuel so it reduces in the
kernel; every step consumes at least one character of `s`, so fuel
`s.length` is exact. -/
def pyReplaceF (new old : List Char) : Nat → List Char → List Char
  | _, [] => []
  | 0, l => l
  | fuel + 1, c :: cs =>
    match dropStart old (c :: cs) with
    | some rest =>
      if old.isEmpty then c :: pyReplaceF new old fuel cs
      else new ++ pyReplaceF new old fuel rest
    | none => c :: pyReplaceF new old fuel cs

def pyReplace (s old new : List Char) : List Char :=
  pyReplaceF new old s.length s

/-- Case-insensitive variant of `dropStart` (regexes compiled with `re.I`). -/
def dropStartCI : List Char → List Char → Option (List Char)
  | [], l => some l
  | _ :: _, [] => none
  | a :: as, b :: bs => if a.toLower = b.toLower then dropStartCI as bs else none

/-! ## Translations of the URL utility functions -/

/-- Translation of `guess_title_from_work_url`.  The regex there is
matched against the last path segment: a maximal leading digit run of
length at least three, a hyphen or slash separator, and a non-empty
remainder (greedy matching cannot backtrack into a shorter digit run
here, since the run is followed by a non-digit). -/
def guess_title_from_work_url (work_url : String) : String :=
  let path := stripSlashes (pyUrlPath work_url).data
  let last := lastSegment path
  let ds := last.takeWhile Char.isDigit
  if ds.length < 3 then ""
  else
    match last.drop ds.length with
    | [] => ""
    | c :: rest =>
      if (c = '-' || c = '/') && !rest.isEmpty then
        let raw := pyUnquote rest
        let raw := pyReplace raw "--".data " - ".data
        let raw := pyReplace raw "-".data " ".data
        String.mk (pyStrip isPySpace (collapseRuns isPySpace ' ' false raw))
      else ""

/-- Attempt to match `/anais/[^/]+/(\d{3,})` (case-insensitively) at the
head of `l`, returning the captured digit run. -/
def matchAnaisAt (l : List Char) : Option (List Char) :=
  match dropStartCI "/anais/".data l with
  | none => none
  | some r1 =>
    let seg := r1.takeWhile (· ≠ '/')
    if seg.isEmpty then none
    else
      match r1.drop seg.length with
      | '/' :: r2 =>
        let ds := r2.takeWhile Char.isDigit
        if 3 ≤ ds.length then some ds else none
      | _ => none

/-- Scan for the first position where `matchAnaisAt` succeeds, as
`re.search` does. -/
def searchAnais : List Char → Option (List Char)
  | [] => none
  | c :: cs =>
    match matchAnaisAt (c :: cs) with
    | some ds => some ds
    | none => searchAnais cs

/-- Translation of `work_id_from_url`. -/
def work_id_from_url (work_url : String) : String :=
  match searchAnais work_url.data with
  | some ds => String.mk ds
  | none => ""

/-! ## Link harvester

`collect_work_urls_with_playwright` drives a browser.  The browser is
modelled as an abstract paginated site: `hrefs i` is the list of anchor
hrefs scraped while the browser is in state `i`, and `next i` is the
result of `click_next` there (`none` when no next-page control can be
clicked — missing, invisible, disabled, or timing out — and `some j`
when the click lands the browser in state `j`).  The initial state is
`start`.  The loop is given fuel; `none` marks fuel exhaustion, so a
result that is independent of any further fuel witnesses termination. -/

structure Site where
  hrefs : Nat → List String
  next : Nat → Option Nat
  start : Nat

/-- The anchored regex `work_url_re` for a given slug, specialised to
the strings manipulated here: scheme, fixed host, `anais/`, the slug,
a slash and at least three digits, case-insensitively. -/
def matchesWorkUrl (slug : String) (h : String) : Bool :=
  let l := h.data.map Char.toLower
  let tail3 := fun (r : Option (List Char)) =>
    match r with
    | some rest => 3 ≤ (rest.takeWhile Char.isDigit).length
    | none => false
  let pat := fun (scheme : String) =>
    dropStart ((scheme ++ "://www.even3.com.br/anais/").data ++
      slug.data.map Char.toLower ++ "/".data) l
  tail3 (pat "https") || tail3 (pat "http")

/-- Python `h.split("?")[0]`. -/
def stripQuery (h : String) : String :=
  String.mk (h.data.takeWhile (· ≠ '?'))

/-- Code-point lexicographic comparison, the order `sorted` uses on
Python strings. -/
def lexLe : List Char → List Char → Bool
  | [], _ => true
  | _ :: _, [] => false
  | a :: as, b :: bs => if a = b then lexLe as bs else decide (a < b)

def strLe (a b : String) : Bool :=
  lexLe a.data b.data

/-- Insertion of `a` in front of the first element it is at or below. -/
def insertStr (a : String) : List String → List String
  | [] => [a]
  | b :: bs => if strLe a b then a :: b :: bs else b :: insertStr a bs

/-- Python `sorted` on strings: ascending by code points.  On the
duplicate-free lists produced by the harvester every comparison sort
agrees, so insertion sort is a faithful model. -/
def pySorted (l : List String) : List String :=
  l.foldr insertStr []

/-- One execution of `scrape_links`: add the cleaned form of every
matching href that is not yet collected, and count the additions. -/
def scrapeLinks (slug : String) (hs : List String) (collected : List String) :
    List String × Nat :=
  hs.foldl
    (fun acc h =>
      if matchesWorkUrl slug h then
        let clean := stripQuery h
        if acc.1.contains clean then acc else (acc.1 ++ [clean], acc.2 + 1)
      else acc)
    (collected, 0)

/-- The harvesting loop: scrape, update the stall counter, stop after
five consecutive stalls or when the next-page click fails. -/
def harvestLoop (slug : String) (site : Site) :
    Nat → Nat → List String → Nat → Option (List String)
  | 0, _, _, _ => none
  | fuel + 1, i, collected, stalled =>
    let (collected', newHere) := scrapeLinks slug (site.hrefs i) collected
    let stalled' := if newHere = 0 then stalled + 1 else 0
    if 5 ≤ stalled' then some collected'
    else
      match site.next i with
      | none => some collected'
      | some j => harvestLoop slug site fuel j collected' stalled'

/-- Translation of `collect_work_urls_with_playwright`: run the loop
from the initial browser state and return `sorted(collected)`. -/
def collect_work_urls_with_playwright (slug : String) (site : Site) (fuel : Nat) :
    Option (List String) :=
  (harvestLoop slug site fuel site.start [] 0).map pySorted

/-! ## Fetcher/Writer

`download_pdf` streams one GET response to `out_path + ".part"` and
renames on success.  The response is an oracle value: the GET call can
raise before anything is written (`conn_error`), `raise_for_status` can
raise on a non-success status before the temp file is opened
(`bad_status`), the stream can break after `k` bytes were written to the
temp file (`stream_fail`), or the full `n`-byte body arrives (`full`).
State `St` carries the filesystem map plus a count of HTTP requests
issued (each `session.get` is one request). -/

inductive GetPdfRes where
  | conn_error : GetPdfRes
  | bad_status : GetPdfRes
  | stream_fail : Nat → GetPdfRes
  | full : Nat → GetPdfRes
deriving DecidableEq

inductive DlExn where
  | fetchRaise : DlExn
  | httpStatus : DlExn
  | streamRaise : DlExn
  | tooSmall : DlExn
deriving DecidableEq

structure St where
  docs : Docs
  calls : Nat
deriving DecidableEq

/-- Translation of `download_pdf` (the `delay` sleep and `mkdir` are
invisible in this model).  `tmp` is `out_path.with_suffix(suffix +
".part")`, which for the `.pdf` destinations used here is `out_path ++
".part"`. -/
def download_pdf (res : GetPdfRes) (st : St) (out_path : String) : St × Except DlExn Unit :=
  let tmp := out_path ++ ".part"
  let st := { st with calls := st.calls + 1 }
  match res with
  | .conn_error => (st, .error .fetchRaise)
  | .bad_status => (st, .error .httpStatus)
  | .stream_fail k => ({ st with docs := setFile st.docs tmp k }, .error .streamRaise)
  | .full n =>
    let docs1 := setFile st.docs tmp n
    if n < 1024 then ({ st with docs := delFile docs1 tmp }, .error .tooSmall)
    else ({ st with docs := setFile (delFile docs1 tmp) out_path n }, .ok ())

/-! ## Resolver -/

/-- The regex `PDF_HREF_RE` used with `.match` on an anchor href (match
at the start, no end anchor, optional query group, case-insensitive):
scheme, `static.even3.com/anais/`, one or more digits, `.pdf`. -/
def isPdfHref (h : String) : Bool :=
  let l := h.data.map Char.toLower
  let chk := fun (r : Option (List Char)) =>
    match r with
    | some rest =>
      let ds := rest.takeWhile Char.isDigit
      !ds.isEmpty && (rest.drop ds.length).take 4 = ".pdf".data
    | none => false
  chk (dropStart "https://static.even3.com/anais/".data l) ||
    chk (dropStart "http://static.even3.com/anais/".data l)

/-- The work page as seen by `parse_work_page_for_pdf`: the raw-HTML
regex search result (`PDF_HREF_RE.search(html)`, an oracle over the
unmodelled page text) and the hrefs of its anchor tags. -/
structure PageHtml where
  searchHit : Option String
  anchors : List String
deriving DecidableEq

/-- Result of `session.get(work_url)`: the call itself may raise (a
network exception, which `parse_work_page_for_pdf` does not catch), or
return a response with a status code and a page. -/
inductive PageRes where
  | raise : PageRes
  | status : Nat → PageHtml → PageRes
deriving DecidableEq

/-- Translation of `parse_work_page_for_pdf`.  A raised GET is an
escaping exception (`Except.error`); a non-200 status yields `none`;
otherwise the regex search is tried first and the anchor scan second. -/
def parse_work_page_for_pdf (res : PageRes) (st : St) : St × Except Unit (Option String) :=
  let st := { st with calls := st.calls + 1 }
  match res with
  | .raise => (st, .error ())
  | .status code html =>
    if code ≠ 200 then (st, .ok none)
    else
      match html.searchHit with
      | some u => (st, .ok (some u))
      | none => (st, .ok (html.anchors.find? isPdfHref))

/-! ## Per-item job -/

/-- The network as one oracle per request kind: `pdf url` is the
response to a streaming GET of a candidate document URL, `page url` the
response to a GET of a work page. -/
structure Net where
  pdf : String → GetPdfRes
  page : String → PageRes

/-- One manifest row `(work_url, work_id, pdf_url, file_path, status)`. -/
structure Row where
  work_url : String
  work_id : String
  pdf_url : String
  file_path : String
  status : String
deriving DecidableEq

/-- Destination filename derived in `job_download`. -/
def filenameOf (work_url : String) : String :=
  let wid := work_id_from_url work_url
  let title := guess_title_from_work_url work_url
  let base0 := if wid = "" then "trabalho" else wid
  let base := if title = "" then base0 else base0 ++ " - " ++ title
  safe_filename base ++ ".pdf"

/-- Destination path `out_dir / filename`. -/
def filePathOf (out_dir work_url : String) : String :=
  out_dir ++ "/" ++ filenameOf work_url

/-- The direct-guess URL `https://static.even3.com/anais/{wid}.pdf`. -/
def directUrlOf (wid : String) : String :=
  "https://static.even3.com/anais/" ++ wid ++ ".pdf"

/-- Step 2 of `job_download` (the code after the direct attempt): fetch
and scan the work page, then fetch the resolved document URL.  An
exception raised by the page fetch escapes (`Except.error`); a resolved
but falsy document URL (absent or empty, `if not pdf_url`) yields
`no_pdf`; the fallback fetch maps success to `downloaded_fallback` and
any exception to `error`. -/
def job_fallback (net : Net) (work_url out_dir wid : String) (st : St) :
    St × Except Unit Row :=
  match parse_work_page_for_pdf (net.page work_url) st with
  | (st2, .error e) => (st2, .error e)
  | (st2, .ok pdf_url?) =>
    if pdf_url?.getD "" = "" then (st2, .ok ⟨work_url, wid, "", "", "no_pdf"⟩)
    else
      match download_pdf (net.pdf (pdf_url?.getD "")) st2 (filePathOf out_dir work_url) with
      | (st3, .ok ()) =>
        (st3, .ok ⟨work_url, wid, pdf_url?.getD "", filePathOf out_dir work_url,
          "downloaded_fallback"⟩)
      | (st3, .error _) => (st3, .ok ⟨work_url, wid, pdf_url?.getD "", "", "error"⟩)

/-- Translation of `job_download`.  The existence check runs before any
network request; the direct-guess fetch is attempted only when a work id
was extracted (`direct_pdf` is falsy exactly when `wid` is empty), and
any exception it raises is swallowed by falling through to
`job_fallback`. -/
def job_download (net : Net) (work_url : String) (out_dir : String) (st : St) :
    St × Except Unit Row :=
  let wid := work_id_from_url work_url
  let file_path := filePathOf out_dir work_url
  if fileNonempty st.docs file_path then
    (st, .ok ⟨work_url, wid, "", file_path, "exists"⟩)
  else if wid = "" then job_fallback net work_url out_dir wid st
  else
    match download_pdf (net.pdf (directUrlOf wid)) st file_path with
    | (st1, .ok ()) => (st1, .ok ⟨work_url, wid, directUrlOf wid, file_path, "downloaded_direct"⟩)
    | (st1, .error _) => job_fallback net work_url out_dir wid st1

/-! ## Download pipeline (`App.worker`, download phase)

The worker pool is linearised: `runJobs` executes every submitted job in
completion order (the `urls` argument is that order; quantifying over
all lists quantifies over all completion orders).  The executor runs
every submitted future even when the consuming loop stops early — the
`with ThreadPoolExecutor` exit waits for them — so the filesystem and
request-count effects of all jobs always apply.  `consume` is the
`as_completed` loop: at each iteration it polls the cancellation flag
(`running i` is the flag value when iteration `i` begins), then takes
the next completed result; `fut.result()` re-raises a job's escaped
exception, which aborts the run. -/

instance instDecEqExcept {α β : Type} [DecidableEq α] [DecidableEq β] :
    DecidableEq (Except α β) := fun a b =>
  match a, b with
  | .error x, .error y =>
    if h : x = y then .isTrue (by rw [h]) else .isFalse (by simp [h])
  | .ok x, .ok y =>
    if h : x = y then .isTrue (by rw [h]) else .isFalse (by simp [h])
  | .error _, .ok _ => .isFalse (by simp)
  | .ok _, .error _ => .isFalse (by simp)

def runJobs (net : Net) (out_dir : String) (urls : List String) (st : St) :
    St × List (Except Unit Row) :=
  match urls with
  | [] => (st, [])
  | u :: us =>
    let (st1, r) := job_download net u out_dir st
    let (st2, rs) := runJobs net out_dir us st1
    (st2, r :: rs)

inductive RunEnd where
  | completed : RunEnd
  | cancelled : RunEnd
  | aborted : RunEnd
deriving DecidableEq

def consume (results : List (Except Unit Row)) (running : Nat → Bool) (i : Nat) :
    List Row × RunEnd :=
  match results with
  | [] => ([], .completed)
  | r :: rs =>
    if running i then
      match r with
      | .error _ => ([], .aborted)
      | .ok row =>
        let (rows, e) := consume rs running (i + 1)
        (row :: rows, e)
    else ([], .cancelled)

/-- On-disk state visible to one run: the document files and the
manifest file (`none` when `manifest.csv` does not exist; otherwise its
data rows — the header is implicit). -/
structure DiskState where
  docs : Docs
  manifestFile : Option (List Row)
deriving DecidableEq

/-- Models `open(manifest, "w", ...)`: create or truncate. -/
def openManifestW (d : DiskState) : DiskState :=
  { d with manifestFile := some [] }

structure RunResult where
  disk : DiskState
  calls : Nat
  endState : RunEnd
deriving DecidableEq

/-- Translation of the download phase of `App.worker`: open the manifest
in truncate mode, submit every job, consume completions while the flag
allows, and leave the rows written so far in the closed manifest file
(an abort via `fut.result()` propagates past the `with` blocks, which
still close the file). -/
def App_worker (net : Net) (out_dir : String) (urls : List String)
    (running : Nat → Bool) (disk : DiskState) : RunResult :=
  let disk1 := openManifestW disk
  let (st, results) := runJobs net out_dir urls { docs := disk1.docs, calls := 0 }
  let (rows, e) := consume results running 0
  ⟨{ docs := st.docs, manifestFile := some rows }, st.calls, e⟩

/-! ## Derived predicates used to state the claims -/

/-- A streaming fetch of `url` succeeds exactly when the full body
arrives and is at least 1 KiB. -/
def fetchSucceeds (net : Net) (url : String) : Bool :=
  match net.pdf url with
  | .full n => 1024 ≤ n
  | _ => false

/-- The direct-guess path applies and its fetch succeeds. -/
def directOk (net : Net) (work_url : String) : Bool :=
  work_id_from_url work_url ≠ "" && fetchSucceeds net (directUrlOf (work_id_from_url work_url))

/-- The value `parse_work_page_for_pdf` returns for a response that was
delivered (not raised). -/
def rawResolve : PageRes → Option String
  | .raise => none
  | .status code html =>
    if code ≠ 200 then none
    else
      match html.searchHit with
      | some u => some u
      | none => html.anchors.find? isPdfHref

/-- The document URL the fallback resolution yields after the job's
falsy test: `none` on a non-200 status, on no match, and on an
empty-string match (falsy in `if not pdf_url`). -/
def resolveForJob (net : Net) (work_url : String) : Option String :=
  match rawResolve (net.page work_url) with
  | some u => if u = "" then none else some u
  | none => none

/-- The status table of the claim: existence short-circuit, then direct
guess, then fallback resolution and fetch. -/
def detStatus (net : Net) (work_url out_dir : String) (docs : Docs) : String :=
  if fileNonempty docs (filePathOf out_dir work_url) then "exists"
  else if directOk net work_url then "downloaded_direct"
  else
    match resolveForJob net work_url with
    | none => "no_pdf"
    | some p => if fetchSucceeds net p then "downloaded_fallback" else "error"

def isOkB : Except Unit Row → Bool
  | .ok _ => true
  | .error _ => false

def okPart : Except Unit Row → Option Row
  | .ok r => some r
  | .error _ => none

/-- A job result that is an outcome whose file is in place afterwards. -/
def rowOkSuccess (r : Except Unit Row) : Bool :=
  match r with
  | .ok row =>
    row.status == "exists" || row.status == "downloaded_direct" ||
      row.status == "downloaded_fallback"
  | .error _ => false

/-- The `exists` row emitted for an already-satisfied item. -/
def existsRow (out_dir work_url : String) : Row :=
  ⟨work_url, work_id_from_url work_url, "", filePathOf out_dir work_url, "exists"⟩

/-! ## Concrete worlds used as test inputs -/

def exUrlA : String := "https://www.even3.com.br/anais/ev/121-A"

def exUrlB : String := "https://www.even3.com.br/anais/ev/122-B"

/-- Direct guess for work 121 succeeds; the page fetch for `exUrlB`
raises a network exception; every other document fetch fails. -/
def netPartial : Net :=
  ⟨fun url => if url = "https://static.even3.com/anais/121.pdf" then .full 2000 else .conn_error,
   fun u => if u = exUrlB then .raise else .status 200 ⟨none, []⟩⟩

/-- Every document fetch raises; every work page loads but contains no
document link. -/
def netNoPdf : Net :=
  ⟨fun _ => .conn_error, fun _ => .status 200 ⟨none, []⟩⟩

/-- Every document fetch delivers a full 2000-byte body. -/
def netAllOk : Net :=
  ⟨fun _ => .full 2000, fun _ => .status 200 ⟨none, []⟩⟩

/-- The direct guess for work 121 delivers a 3-byte body; the page
resolves a document URL whose fetch delivers a valid 5000-byte body. -/
def netSmallDirect : Net :=
  ⟨fun url => if url = "https://static.even3.com/anais/121.pdf" then .full 3 else .full 5000,
   fun _ => .status 200 ⟨some "https://static.even3.com/anais/9.pdf", []⟩⟩

def harvPref : String := "https://www.even3.com.br/anais/ev/"

/-- Ten distinct work links for page `p` (1-based), served with query
strings, plus page index handling for the simulated site. -/
def pageLinks (p : Nat) : List String :=
  (List.range 10).map (fun i => harvPref ++ toString (100 + 10 * (p - 1) + i) ++ "?s=1")

/-- Three pages of ten unique links each; every page also shows one
non-matching link; the next-page control cannot be clicked on page 3. -/
def site30 : Site :=
  { hrefs := fun i => if i ≤ 3 then "https://example.com/x" :: pageLinks i else [],
    next := fun i => if i = 1 then some 2 else if i = 2 then some 3 else none,
    start := 1 }

def expected30 : List String :=
  (List.range 30).map (fun i => harvPref ++ toString (100 + i))

/-- One page of ten links whose next-page control always "works" but
never leaves the page: the five-stall guard must stop the loop. -/
def siteStall : Site :=
  { hrefs := fun _ => pageLinks 1, next := fun _ => some 1, start := 1 }

def expectedStall : List String :=
  (List.range 10).map (fun i => harvPref ++ toString (100 + i))

def c8url : String := "https://www.even3.com.br/anais/ennepe2022/528929-ELES-NAO-TEM--MEDO"

/-! ## Helper lemmas: strings and the filesystem map -/

theorem string_data_append (a b : String) : (a ++ b).data = a.data ++ b.data := rfl

theorem pdf_ne_part (a b : String) : a ++ ".pdf" ≠ b ++ ".part" := by
  intro h
  have h2 := congrArg (fun s => s.data.reverse) h
  simp only [string_data_append] at h2
  simp [List.reverse_append] at h2

theorem self_ne_part (s : String) : s ≠ s ++ ".part" := by
  intro h
  have h2 := congrArg (fun t => t.data.length) h
  simp only [string_data_append, List.length_append] at h2
  simp at h2

theorem filePathOf_eq_append (out_dir u : String) :
    filePathOf out_dir u =
      (out_dir ++ "/" ++ safe_filename (let wid := work_id_from_url u;
        let title := guess_title_from_work_url u;
        let base0 := if wid = "" then "trabalho" else wid;
        if title = "" then base0 else base0 ++ " - " ++ title)) ++ ".pdf" := by
  simp only [filePathOf, filenameOf, String.append_assoc]

theorem lookupFile_setFile_self (docs : Docs) (p : String) (n : Nat) :
    lookupFile (setFile docs p n) p = some n := by
  induction docs with
  | nil => simp [setFile, lookupFile]
  | cons hd tl ih =>
    obtain ⟨q, m⟩ := hd
    by_cases h : q = p <;> simp [setFile, lookupFile, h, ih]

theorem lookupFile_setFile_ne (docs : Docs) (p q : String) (n : Nat) (h : q ≠ p) :
    lookupFile (setFile docs p n) q = lookupFile docs q := by
  induction docs with
  | nil => simp [setFile, lookupFile, Ne.symm h]
  | cons hd tl ih =>
    obtain ⟨r, m⟩ := hd
    by_cases hr : r = p
    · subst hr
      simp [setFile, lookupFile, h, Ne.symm h]
    · simp only [setFile, if_neg hr]
      by_cases hq : r = q <;> simp [lookupFile, hq, ih]

theorem lookupFile_delFile_self (docs : Docs) (p : String) :
    lookupFile (delFile docs p) p = none := by
  induction docs with
  | nil => simp [delFile, lookupFile]
  | cons hd tl ih =>
    obtain ⟨q, m⟩ := hd
    by_cases h : q = p <;> simp [delFile, lookupFile, h, ih]

theorem lookupFile_delFile_ne (docs : Docs) (p q : String) (h : q ≠ p) :
    lookupFile (delFile docs p) q = lookupFile docs q := by
  induction docs with
  | nil => simp [delFile, lookupFile]
  | cons hd tl ih =>
    obtain ⟨r, m⟩ := hd
    by_cases hr : r = p
    · subst hr
      simp [delFile, lookupFile, Ne.symm h, ih]
    · simp only [delFile, if_neg hr]
      by_cases hq : r = q <;> simp [lookupFile, hq, ih]

theorem fileNonempty_setFile_ne (docs : Docs) (p q : String) (n : Nat) (h : q ≠ p) :
    fileNonempty (setFile docs p n) q = fileNonempty docs q := by
  simp [fileNonempty, lookupFile_setFile_ne docs p q n h]

theorem fileNonempty_delFile_ne (docs : Docs) (p q : String) (h : q ≠ p) :
    fileNonempty (delFile docs p) q = fileNonempty docs q := by
  simp [fileNonempty, lookupFile_delFile_ne docs p q h]

/-! ## Helper lemmas: the fetcher -/

theorem download_pdf_error_dest (res : GetPdfRes) (st : St) (out : String) (e : DlExn)
    (h : (download_pdf res st out).2 = .error e) :
    lookupFile (download_pdf res st out).1.docs out = lookupFile st.docs out := by
  cases res with
  | conn_error => simp [download_pdf]
  | bad_status => simp [download_pdf]
  | stream_fail k =>
    simp [download_pdf, lookupFile_setFile_ne _ _ _ _ (self_ne_part out)]
  | full n =>
    by_cases hn : n < 1024
    · simp [download_pdf, hn, lookupFile_delFile_ne _ _ _ (self_ne_part out),
        lookupFile_setFile_ne _ _ _ _ (self_ne_part out)]
    · simp [download_pdf, hn] at h

theorem download_pdf_ok_dest (res : GetPdfRes) (st : St) (out : String)
    (h : (download_pdf res st out).2 = .ok ()) :
    ∃ n, 1024 ≤ n ∧ lookupFile (download_pdf res st out).1.docs out = some n := by
  cases res with
  | conn_error => simp [download_pdf] at h
  | bad_status => simp [download_pdf] at h
  | stream_fail k => simp [download_pdf] at h
  | full n =>
    by_cases hn : n < 1024
    · simp [download_pdf, hn] at h
    · exact ⟨n, by omega, by simp [download_pdf, hn, lookupFile_setFile_self]⟩

theorem download_pdf_ok_iff (net : Net) (url : String) (st : St) (out : String) :
    (download_pdf (net.pdf url) st out).2 = .ok () ↔ fetchSucceeds net url = true := by
  cases hres : net.pdf url with
  | conn_error => simp [download_pdf, fetchSucceeds, hres]
  | bad_status => simp [download_pdf, fetchSucceeds, hres]
  | stream_fail k => simp [download_pdf, fetchSucceeds, hres]
  | full n =>
    by_cases hn : n < 1024 <;> simp [download_pdf, fetchSucceeds, hres, hn] <;> omega

theorem download_pdf_preserves_pdf (res : GetPdfRes) (st : St) (out a : String)
    (h : fileNonempty st.docs (a ++ ".pdf") = true) :
    fileNonempty (download_pdf res st out).1.docs (a ++ ".pdf") = true := by
  cases res with
  | conn_error => simpa [download_pdf] using h
  | bad_status => simpa [download_pdf] using h
  | stream_fail k =>
    simpa [download_pdf, fileNonempty_setFile_ne _ _ _ _ (pdf_ne_part a out)] using h
  | full n =>
    by_cases hn : n < 1024
    · simpa [download_pdf, hn, fileNonempty_delFile_ne _ _ _ (pdf_ne_part a out),
        fileNonempty_setFile_ne _ _ _ _ (pdf_ne_part a out)] using h
    · by_cases hq : a ++ ".pdf" = out
      · subst hq
        simp [download_pdf, hn, fileNonempty, lookupFile_setFile_self]
        omega
      · simpa [download_pdf, hn, fileNonempty_setFile_ne _ _ _ _ hq,
          fileNonempty_delFile_ne _ _ _ (pdf_ne_part a out),
          fileNonempty_setFile_ne _ _ _ _ (pdf_ne_part a out)] using h

theorem download_pdf_small (st : St) (out : String) (n : Nat) (hn : n < 1024) :
    (download_pdf (.full n) st out).2 = .error .tooSmall ∧
      lookupFile (download_pdf (.full n) st out).1.docs (out ++ ".part") = none := by
  constructor
  · simp [download_pdf, hn]
  · simp [download_pdf, hn, lookupFile_delFile_self]

theorem download_pdf_nowrite (res : GetPdfRes) (st : St) (out : String)
    (h : res = .bad_status ∨ res = .conn_error) :
    (download_pdf res st out).1.docs = st.docs := by
  rcases h with h | h <;> subst h <;> simp [download_pdf]

theorem download_pdf_calls (res : GetPdfRes) (st : St) (out : String) :
    (download_pdf res st out).1.calls = st.calls + 1 := by
  cases res with
  | conn_error => simp [download_pdf]
  | bad_status => simp [download_pdf]
  | stream_fail k => simp [download_pdf]
  | full n => by_cases hn : n < 1024 <;> simp [download_pdf, hn]

/-! ## Helper lemmas: resolver and per-item job -/

theorem parse_no_raise (res : PageRes) (st : St) (h : res ≠ .raise) :
    parse_work_page_for_pdf res st = ({ st with calls := st.calls + 1 }, .ok (rawResolve res)) := by
  cases res with
  | raise => exact absurd rfl h
  | status code html =>
    by_cases hc : code = 200
    · subst hc
      rcases hs : html.searchHit with _ | u <;>
        simp [parse_work_page_for_pdf, rawResolve, hs]
    · simp [parse_work_page_for_pdf, rawResolve, hc]

theorem parse_raise (st : St) :
    parse_work_page_for_pdf .raise st = ({ st with calls := st.calls + 1 }, .error ()) := rfl

theorem job_fallback_ok_facts (net : Net) (u dir wid : String) (st : St) (st' : St) (row : Row)
    (h : job_fallback net u dir wid st = (st', .ok row)) :
    row.work_url = u ∧
      (row.status = "no_pdf" ∨ row.status = "downloaded_fallback" ∨ row.status = "error") ∧
      (row.status = "downloaded_fallback" → fileNonempty st'.docs (filePathOf dir u) = true) := by
  by_cases hp : net.page u = .raise
  · rw [job_fallback, hp, parse_raise] at h
    simp at h
  · rw [job_fallback, parse_no_raise (net.page u) st hp] at h
    rcases hraw : rawResolve (net.page u) with _ | p
    all_goals rw [hraw] at h
    · simp at h
      obtain ⟨h1, h2⟩ := h
      subst h1 h2
      simp
    · by_cases hpe : p = ""
      · subst hpe
        simp at h
        obtain ⟨h1, h2⟩ := h
        subst h1 h2
        simp
      · simp only [Option.getD, if_neg hpe] at h
        rcases hdl : download_pdf (net.pdf p) { st with calls := st.calls + 1 }
            (filePathOf dir u) with ⟨st3, r⟩
        rw [hdl] at h
        cases r with
        | ok v =>
          simp at h
          obtain ⟨h1, h2⟩ := h
          subst h1 h2
          refine ⟨rfl, by simp, fun _ => ?_⟩
          have hok : (download_pdf (net.pdf p) { st with calls := st.calls + 1 }
              (filePathOf dir u)).2 = .ok () := by rw [hdl]
          obtain ⟨n, hn, hlook⟩ := download_pdf_ok_dest _ _ _ hok
          rw [hdl] at hlook
          simp [fileNonempty, hlook]
          omega
        | error e =>
          simp at h
          obtain ⟨h1, h2⟩ := h
          subst h1 h2
          simp

theorem job_fallback_no_raise (net : Net) (u dir wid : String) (st : St)
    (hp : net.page u ≠ .raise) :
    ∃ st' row, job_fallback net u dir wid st = (st', .ok row) ∧ row.work_url = u ∧
      row.status = (match resolveForJob net u with
        | none => "no_pdf"
        | some p => if fetchSucceeds net p then "downloaded_fallback" else "error") := by
  rw [job_fallback, parse_no_raise (net.page u) st hp]
  rcases hraw : rawResolve (net.page u) with _ | p
  · exact ⟨{ st with calls := st.calls + 1 }, ⟨u, wid, "", "", "no_pdf"⟩,
      by simp, rfl, by simp [resolveForJob, hraw]⟩
  · by_cases hpe : p = ""
    · subst hpe
      exact ⟨{ st with calls := st.calls + 1 }, ⟨u, wid, "", "", "no_pdf"⟩,
        by simp, rfl, by simp [resolveForJob, hraw]⟩
    · rcases hdl : download_pdf (net.pdf p) { st with calls := st.calls + 1 }
          (filePathOf dir u) with ⟨st3, r⟩
      cases r with
      | ok v =>
        have hok : fetchSucceeds net p = true := by
          rw [← download_pdf_ok_iff net p { st with calls := st.calls + 1 } (filePathOf dir u), hdl]
        refine ⟨st3, ⟨u, wid, p, filePathOf dir u, "downloaded_fallback"⟩, ?_, rfl, ?_⟩
        · simp only [Option.getD, if_neg hpe, hdl]
        · simp [resolveForJob, hraw, hpe, hok]
      | error e =>
        have hok : ¬ fetchSucceeds net p = true := by
          rw [← download_pdf_ok_iff net p { st with calls := st.calls + 1 } (filePathOf dir u), hdl]
          simp
        refine ⟨st3, ⟨u, wid, p, "", "error"⟩, ?_, rfl, ?_⟩
        · simp only [Option.getD, if_neg hpe, hdl]
        · simp [resolveForJob, hraw, hpe, hok]

theorem job_fallback_error (net : Net) (u dir wid : String) (st : St) (st' : St) (e : Unit)
    (h : job_fallback net u dir wid st = (st', .error e)) : net.page u = .raise := by
  by_cases hp : net.page u = .raise
  · exact hp
  · obtain ⟨s2, row, heq, -, -⟩ := job_fallback_no_raise net u dir wid st hp
    rw [heq] at h
    simp at h

theorem job_fallback_preserves_pdf (net : Net) (u dir wid : String) (st : St) (st' : St)
    (r : Except Unit Row) (a : String) (h : job_fallback net u dir wid st = (st', r))
    (hf : fileNonempty st.docs (a ++ ".pdf") = true) :
    fileNonempty st'.docs (a ++ ".pdf") = true := by
  by_cases hp : net.page u = .raise
  · rw [job_fallback, hp, parse_raise] at h
    simp at h
    rw [← h.1]
    simpa using hf
  · rw [job_fallback, parse_no_raise (net.page u) st hp] at h
    rcases hraw : rawResolve (net.page u) with _ | p
    all_goals rw [hraw] at h
    · simp at h
      exact h.1 ▸ hf
    · by_cases hpe : p = ""
      · subst hpe
        simp at h
        exact h.1 ▸ hf
      · simp only [Option.getD, if_neg hpe] at h
        rcases hdl : download_pdf (net.pdf p) { st with calls := st.calls + 1 }
            (filePathOf dir u) with ⟨st3, rr⟩
        rw [hdl] at h
        have hpres : fileNonempty st3.docs (a ++ ".pdf") = true := by
          have := download_pdf_preserves_pdf (net.pdf p) { st with calls := st.calls + 1 }
            (filePathOf dir u) a hf
          rwa [hdl] at this
        cases rr with
        | ok v =>
          simp at h
          exact h.1 ▸ hpres
        | error e2 =>
          simp at h
          exact h.1 ▸ hpres

theorem job_download_exists (net : Net) (u dir : String) (st : St)
    (hex : fileNonempty st.docs (filePathOf dir u) = true) :
    job_download net u dir st = (st, .ok (existsRow dir u)) := by
  simp [job_download, hex, existsRow]

theorem job_download_ok_facts (net : Net) (u dir : String) (st : St) (st' : St) (row : Row)
    (h : job_download net u dir st = (st', .ok row)) :
    row.work_url = u ∧
      (row.status = "exists" ∨ row.status = "downloaded_direct" ∨
        row.status = "downloaded_fallback" ∨ row.status = "no_pdf" ∨ row.status = "error") ∧
      ((row.status = "exists" ∨ row.status = "downloaded_direct" ∨
          row.status = "downloaded_fallback") →
        fileNonempty st'.docs (filePathOf dir u) = true) := by
  by_cases hex : fileNonempty st.docs (filePathOf dir u) = true
  · rw [job_download_exists net u dir st hex] at h
    simp at h
    obtain ⟨h1, h2⟩ := h
    subst h1 h2
    exact ⟨rfl, by simp [existsRow], fun _ => hex⟩
  · rw [job_download] at h
    simp only [if_neg hex] at h
    by_cases hw : work_id_from_url u = ""
    · rw [if_pos hw] at h
      obtain ⟨h1, h2, h3⟩ := job_fallback_ok_facts net u dir _ st st' row h
      exact ⟨h1, by tauto, fun hs => by
        rcases hs with hs | hs | hs
        · rcases h2 with h2 | h2 | h2 <;> simp [hs] at h2
        · rcases h2 with h2 | h2 | h2 <;> simp [hs] at h2
        · exact h3 hs⟩
    · rw [if_neg hw] at h
      rcases hdl : download_pdf (net.pdf (directUrlOf (work_id_from_url u))) st
          (filePathOf dir u) with ⟨st1, r⟩
      rw [hdl] at h
      cases r with
      | ok v =>
        simp at h
        obtain ⟨h1, h2⟩ := h
        subst h1 h2
        refine ⟨rfl, by simp, fun _ => ?_⟩
        have hok : (download_pdf (net.pdf (directUrlOf (work_id_from_url u))) st
            (filePathOf dir u)).2 = .ok () := by rw [hdl]
        obtain ⟨n, hn, hlook⟩ := download_pdf_ok_dest _ _ _ hok
        rw [hdl] at hlook
        simp [fileNonempty, hlook]
        omega
      | error e =>
        obtain ⟨h1, h2, h3⟩ := job_fallback_ok_facts net u dir _ st1 st' row h
        exact ⟨h1, by tauto, fun hs => by
          rcases hs with hs | hs | hs
          · rcases h2 with h2 | h2 | h2 <;> simp [hs] at h2
          · rcases h2 with h2 | h2 | h2 <;> simp [hs] at h2
          · exact h3 hs⟩

theorem job_download_error (net : Net) (u dir : String) (st : St) (st' : St) (e : Unit)
    (h : job_download net u dir st = (st', .error e)) : net.page u = .raise := by
  by_cases hex : fileNonempty st.docs (filePathOf dir u) = true
  · rw [job_download_exists net u dir st hex] at h
    simp at h
  · rw [job_download] at h
    simp only [if_neg hex] at h
    by_cases hw : work_id_from_url u = ""
    · rw [if_pos hw] at h
      exact job_fallback_error net u dir _ st st' e h
    · rw [if_neg hw] at h
      rcases hdl : download_pdf (net.pdf (directUrlOf (work_id_from_url u))) st
          (filePathOf dir u) with ⟨st1, r⟩
      rw [hdl] at h
      cases r with
      | ok v => simp at h
      | error e2 => exact job_fallback_error net u dir _ st1 st' e h

theorem job_download_no_raise (net : Net) (u dir : String) (st : St)
    (hp : net.page u ≠ .raise) :
    ∃ st' row, job_download net u dir st = (st', .ok row) ∧ row.work_url = u ∧
      row.status = detStatus net u dir st.docs := by
  by_cases hex : fileNonempty st.docs (filePathOf dir u) = true
  · exact ⟨st, existsRow dir u, job_download_exists net u dir st hex, rfl,
      by simp [detStatus, hex, existsRow]⟩
  · rw [job_download]
    simp only [if_neg hex]
    by_cases hw : work_id_from_url u = ""
    · rw [if_pos hw]
      obtain ⟨st', row, heq, hurl, hstat⟩ := job_fallback_no_raise net u dir _ st hp
      refine ⟨st', row, heq, hurl, ?_⟩
      rw [hstat]
      simp [detStatus, hex, directOk, hw]
    · rw [if_neg hw]
      rcases hdl : download_pdf (net.pdf (directUrlOf (work_id_from_url u))) st
          (filePathOf dir u) with ⟨st1, r⟩
      cases r with
      | ok v =>
        have hok : fetchSucceeds net (directUrlOf (work_id_from_url u)) = true := by
          rw [← download_pdf_ok_iff net _ st (filePathOf dir u), hdl]
        refine ⟨st1, _, rfl, rfl, ?_⟩
        simp [detStatus, hex, directOk, hw, hok]
      | error e =>
        have hok : ¬ fetchSucceeds net (directUrlOf (work_id_from_url u)) = true := by
          rw [← download_pdf_ok_iff net _ st (filePathOf dir u), hdl]
          simp
        obtain ⟨st', row, heq, hurl, hstat⟩ := job_fallback_no_raise net u dir _ st1 hp
        refine ⟨st', row, heq, hurl, ?_⟩
        rw [hstat]
        simp [detStatus, hex, directOk, hw, hok]

theorem job_download_preserves_pdf (net : Net) (u dir : String) (st : St) (st' : St)
    (r : Except Unit Row) (a : String) (h : job_download net u dir st = (st', r))
    (hf : fileNonempty st.docs (a ++ ".pdf") = true) :
    fileNonempty st'.docs (a ++ ".pdf") = true := by
  by_cases hex : fileNonempty st.docs (filePathOf dir u) = true
  · rw [job_download_exists net u dir st hex] at h
    have h1 : st = st' := congrArg Prod.fst h
    rw [← h1]
    exact hf
  · rw [job_download] at h
    simp only [if_neg hex] at h
    by_cases hw : work_id_from_url u = ""
    · rw [if_pos hw] at h
      exact job_fallback_preserves_pdf net u dir _ st st' r a h hf
    · rw [if_neg hw] at h
      rcases hdl : download_pdf (net.pdf (directUrlOf (work_id_from_url u))) st
          (filePathOf dir u) with ⟨st1, rr⟩
      rw [hdl] at h
      have hpres : fileNonempty st1.docs (a ++ ".pdf") = true := by
        have := download_pdf_preserves_pdf (net.pdf (directUrlOf (work_id_from_url u))) st
          (filePathOf dir u) a hf
        rwa [hdl] at this
      cases rr with
      | ok v =>
        simp at h
        rw [← h.1]
        exact hpres
      | error e => exact job_fallback_preserves_pdf net u dir _ st1 st' r a h hpres

/-! ## Helper lemmas: pipeline -/

theorem runJobs_cons (net : Net) (dir u : String) (us : List String) (st : St) :
    runJobs net dir (u :: us) st =
      ((runJobs net dir us (job_download net u dir st).1).1,
        (job_download net u dir st).2 ::
          (runJobs net dir us (job_download net u dir st).1).2) := rfl

theorem runJobs_length (net : Net) (dir : String) (urls : List String) (st : St) :
    (runJobs net dir urls st).2.length = urls.length := by
  induction urls generalizing st with
  | nil => simp [runJobs]
  | cons u us ih => simp [runJobs_cons, ih]

theorem runJobs_preserves_pdf (net : Net) (dir : String) (urls : List String) (st : St)
    (a : String) (hf : fileNonempty st.docs (a ++ ".pdf") = true) :
    fileNonempty (runJobs net dir urls st).1.docs (a ++ ".pdf") = true := by
  induction urls generalizing st with
  | nil => simpa [runJobs] using hf
  | cons u us ih =>
    rw [runJobs_cons]
    exact ih _ (job_download_preserves_pdf net u dir st _ _ a rfl hf)

theorem runJobs_all_ok_urls (net : Net) (dir : String) (urls : List String) (st : St)
    (h : (runJobs net dir urls st).2.all isOkB = true) :
    ((runJobs net dir urls st).2.filterMap okPart).map Row.work_url = urls := by
  induction urls generalizing st with
  | nil => simp [runJobs]
  | cons u us ih =>
    rw [runJobs_cons] at h ⊢
    simp only [List.all_cons, Bool.and_eq_true] at h
    obtain ⟨h1, h2⟩ := h
    rcases hj : (job_download net u dir st).2 with e | row
    · simp [hj, isOkB] at h1
    · have hpair : job_download net u dir st = ((job_download net u dir st).1, .ok row) := by
        rw [← hj]
      have hurl := (job_download_ok_facts net u dir st _ row hpair).1
      simp [hj, okPart, hurl, ih _ h2]

theorem runJobs_success_files (net : Net) (dir : String) (urls : List String) (st : St)
    (h : (runJobs net dir urls st).2.all rowOkSuccess = true) :
    ∀ u ∈ urls, fileNonempty (runJobs net dir urls st).1.docs (filePathOf dir u) = true := by
  induction urls generalizing st with
  | nil => simp
  | cons v us ih =>
    rw [runJobs_cons] at h ⊢
    simp only [List.all_cons, Bool.and_eq_true] at h
    obtain ⟨h1, h2⟩ := h
    intro u hu
    rcases List.mem_cons.mp hu with rfl | hmem
    · rcases hj : (job_download net u dir st).2 with e | row
      · simp [hj, rowOkSuccess] at h1
      · have hpair : job_download net u dir st = ((job_download net u dir st).1, .ok row) := by
          rw [← hj]
        rw [hj] at h1
        simp only [rowOkSuccess, Bool.or_eq_true, beq_iff_eq] at h1
        have hfile := (job_download_ok_facts net u dir st _ row hpair).2.2 (by tauto)
        rw [filePathOf_eq_append]
        rw [filePathOf_eq_append] at hfile
        exact runJobs_preserves_pdf net dir us _ _ hfile
    · exact ih _ h2 u hmem

theorem runJobs_resume (net : Net) (dir : String) (urls : List String) (st : St)
    (h : ∀ u ∈ urls, fileNonempty st.docs (filePathOf dir u) = true) :
    runJobs net dir urls st = (st, urls.map (fun u => .ok (existsRow dir u))) := by
  induction urls with
  | nil => simp [runJobs]
  | cons u us ih =>
    rw [runJobs_cons, job_download_exists net u dir st (h u (by simp))]
    rw [ih (fun v hv => h v (by simp [hv]))]
    simp

theorem consume_all_ok (running : Nat → Bool) (hr : ∀ j, running j = true) :
    ∀ (results : List (Except Unit Row)) (i : Nat), results.all isOkB = true →
      consume results running i = (results.filterMap okPart, .completed) := by
  intro results
  induction results with
  | nil => intro i _; simp [consume]
  | cons r rs ih =>
    intro i h
    simp only [List.all_cons, Bool.and_eq_true] at h
    rcases r with e | row
    · simp [isOkB] at h
    · simp [consume, hr i, okPart, ih (i + 1) h.2]

theorem consume_cancel (running : Nat → Bool) :
    ∀ (results : List (Except Unit Row)) (i j : Nat),
      (∀ k, k < j → running (i + k) = true) → running (i + j) = false →
      j < results.length → results.all isOkB = true →
      consume results running i = ((results.take j).filterMap okPart, .cancelled) := by
  intro results
  induction results with
  | nil => intro i j _ _ hlen; simp at hlen
  | cons r rs ih =>
    intro i j hlt hj hlen hall
    simp only [List.all_cons, Bool.and_eq_true] at hall
    rcases j with _ | j'
    · simp at hj
      simp [consume, hj]
    · have h0 : running i = true := by simpa using hlt 0 (by omega)
      rcases r with e | row
      · simp [isOkB] at hall
      · have hstep := ih (i + 1) j'
          (fun k hk => by
            have := hlt (k + 1) (by omega)
            simpa [Nat.add_assoc, Nat.add_comm 1 k] using this)
          (by simpa [Nat.add_assoc, Nat.add_comm 1 j'] using hj)
          (by simpa using hlen) hall.2
        simp [consume, h0, hstep, okPart]

theorem App_worker_eq (net : Net) (dir : String) (urls : List String)
    (running : Nat → Bool) (disk : DiskState) :
    App_worker net dir urls running disk =
      ⟨⟨(runJobs net dir urls ⟨disk.docs, 0⟩).1.docs,
        some (consume (runJobs net dir urls ⟨disk.docs, 0⟩).2 running 0).1⟩,
       (runJobs net dir urls ⟨disk.docs, 0⟩).1.calls,
       (consume (runJobs net dir urls ⟨disk.docs, 0⟩).2 running 0).2⟩ := rfl

theorem all_isOkB_map_ok (dir : String) (urls : List String) :
    (urls.map (fun u => (Except.ok (existsRow dir u) : Except Unit Row))).all isOkB = true := by
  induction urls with
  | nil => simp
  | cons u us ih => simpa [isOkB] using ih

theorem filterMap_okPart_map_ok (dir : String) (urls : List String) :
    (urls.map (fun u => (Except.ok (existsRow dir u) : Except Unit Row))).filterMap okPart =
      urls.map (existsRow dir) := by
  induction urls with
  | nil => simp
  | cons u us ih => simpa [okPart] using ih

theorem filterMap_okPart_length (l : List (Except Unit Row)) (h : l.all isOkB = true) :
    (l.filterMap okPart).length = l.length := by
  induction l with
  | nil => simp
  | cons r rs ih =>
    simp only [List.all_cons, Bool.and_eq_true] at h
    rcases r with e | row
    · simp [isOkB] at h
    · simp [okPart, ih h.2]

theorem all_take (l : List (Except Unit Row)) (j : Nat) (h : l.all isOkB = true) :
    (l.take j).all isOkB = true := by
  rw [List.all_eq_true] at h ⊢
  exact fun x hx => h x (List.take_subset j l hx)

/-! ## Helper lemmas: safe_filename -/

theorem mem_collapseRuns (p : Char → Bool) (r : Char) :
    ∀ (b : Bool) (l : List Char) (c : Char), c ∈ collapseRuns p r b l →
      c = r ∨ (p c = false ∧ c ∈ l) := by
  intro b l
  induction l generalizing b with
  | nil => intro c hc; simp [collapseRuns] at hc
  | cons x xs ih =>
    intro c hc
    by_cases hx : p x = true
    · cases b with
      | false =>
        rw [collapseRuns, if_pos hx, if_neg (by simp)] at hc
        simp only [List.mem_cons] at hc
        rcases hc with hc | hc
        · exact Or.inl hc
        · rcases ih true c hc with h | ⟨h1, h2⟩
          · exact Or.inl h
          · exact Or.inr ⟨h1, by simp [h2]⟩
      | true =>
        rw [collapseRuns, if_pos hx, if_pos rfl] at hc
        rcases ih true c hc with h | ⟨h1, h2⟩
        · exact Or.inl h
        · exact Or.inr ⟨h1, by simp [h2]⟩
    · rw [collapseRuns, if_neg hx] at hc
      simp only [List.mem_cons] at hc
      rcases hc with hc | hc
      · subst hc
        exact Or.inr ⟨by simpa using hx, by simp⟩
      · rcases ih false c hc with h | ⟨h1, h2⟩
        · exact Or.inl h
        · exact Or.inr ⟨h1, by simp [h2]⟩

theorem mem_pyRstrip (p : Char → Bool) (l : List Char) (c : Char)
    (hc : c ∈ pyRstrip p l) : c ∈ l := by
  rw [pyRstrip, List.mem_reverse] at hc
  have := (List.dropWhile_sublist p).subset hc
  simpa using this

theorem mem_pyStrip (p : Char → Bool) (l : List Char) (c : Char)
    (hc : c ∈ pyStrip p l) : c ∈ l := by
  rw [pyStrip] at hc
  have := mem_pyRstrip p _ c hc
  rw [pyLstrip] at this
  exact (List.dropWhile_sublist p).subset this

theorem pyRstrip_length_le (p : Char → Bool) (l : List Char) :
    (pyRstrip p l).length ≤ l.length := by
  rw [pyRstrip, List.length_reverse]
  have := (List.dropWhile_sublist p (l := l.reverse)).length_le
  simpa using this

theorem pyRstrip_ne_nil (p : Char → Bool) (c : Char) (cs : List Char) (hc : p c = false) :
    pyRstrip p (c :: cs) ≠ [] := by
  intro h
  rw [pyRstrip] at h
  have h2 : (c :: cs).reverse.dropWhile p = [] := by
    have := congrArg List.reverse h
    simpa using this
  rw [List.dropWhile_eq_nil_iff] at h2
  have := h2 c (by simp)
  rw [hc] at this
  exact Bool.false_ne_true this

theorem dropWhile_exists_front (p : Char → Bool) :
    ∀ l : List Char, ∃ t, t ++ l.dropWhile p = l := by
  intro l
  induction l with
  | nil => exact ⟨[], rfl⟩
  | cons c cs ih =>
    by_cases hc : p c = true
    · obtain ⟨t, ht⟩ := ih
      exact ⟨c :: t, by simp [List.dropWhile_cons, hc, ht]⟩
    · exact ⟨[], by simp [List.dropWhile_cons, hc]⟩

theorem head_dropWhile (p : Char → Bool) :
    ∀ (l : List Char) (c : Char) (cs : List Char), l.dropWhile p = c :: cs → p c = false := by
  intro l
  induction l with
  | nil => intro c cs h; simp at h
  | cons x xs ih =>
    intro c cs h
    by_cases hx : p x = true
    · rw [List.dropWhile_cons, if_pos hx] at h
      exact ih c cs h
    · rw [List.dropWhile_cons, if_neg hx] at h
      cases h
      simpa using hx

theorem pyRstrip_front (p : Char → Bool) (l : List Char) :
    ∃ t, pyRstrip p l ++ t = l := by
  obtain ⟨t, ht⟩ := dropWhile_exists_front p l.reverse
  refine ⟨t.reverse, ?_⟩
  have := congrArg List.reverse ht
  simpa [pyRstrip] using this

theorem pyStrip_head (p : Char → Bool) (l : List Char) (c : Char) (cs : List Char)
    (h : pyStrip p l = c :: cs) : p c = false := by
  obtain ⟨t, ht⟩ := pyRstrip_front p (pyLstrip p l)
  rw [pyStrip] at h
  rw [h] at ht
  exact head_dropWhile p l c (cs ++ t) ht.symm

theorem mem_pySlice (l : List Char) (n : Int) (c : Char) (hc : c ∈ pySlice l n) : c ∈ l := by
  rw [pySlice] at hc
  split at hc <;> exact List.take_subset _ _ hc

theorem mem_trunc (l3 : List Char) (m : Int) (c : Char)
    (hc : c ∈ (if (l3.length : Int) > m then pyRstrip isPySpace (pySlice l3 m) else l3)) :
    c ∈ l3 := by
  split at hc
  · exact mem_pySlice l3 m c (mem_pyRstrip isPySpace _ c hc)
  · exact hc

theorem trunc_length_le (l3 : List Char) (m : Int) (hm : 0 ≤ m) :
    (((if (l3.length : Int) > m then pyRstrip isPySpace (pySlice l3 m) else l3).length : Int))
      ≤ m := by
  split
  · have h1 : (pyRstrip isPySpace (pySlice l3 m)).length ≤ (pySlice l3 m).length :=
      pyRstrip_length_le isPySpace _
    have h2 : (pySlice l3 m).length ≤ m.toNat := by
      rw [pySlice, if_pos hm]
      simp [List.length_take]
    omega
  · omega

theorem trunc_ne_nil (l3 : List Char) (m : Int) (hm : 1 ≤ m)
    (h : ∃ c cs, l3 = c :: cs ∧ isPySpace c = false) :
    (if (l3.length : Int) > m then pyRstrip isPySpace (pySlice l3 m) else l3) ≠ [] := by
  obtain ⟨c, cs, h3, hc⟩ := h
  split
  · rw [pySlice, if_pos (by omega), h3, List.take_cons (by omega)]
    exact pyRstrip_ne_nil isPySpace c _ hc
  · rw [h3]
    simp

/-! ## Claim theorems -/

/-- C1, counterexample.  A single item whose fallback page fetch raises
a network exception terminates the whole run: the exception escapes
`job_download`, re-raises at `fut.result()`, and the run ends in the
aborted state with no `error` outcome recorded for the item. -/
theorem C1_counterexample :
    App_worker netPartial "out" [exUrlB] (fun _ => true) ⟨[], none⟩ =
      ⟨⟨[], some []⟩, 2, .aborted⟩ := by
  decide

/-- C1, amended.  Exceptions raised by the document fetcher (direct or
fallback attempt) are caught at the job boundary and never escape
`job_download`: a job can fail to return an outcome only when the
fallback page fetch itself raises.  Equivalently, whenever the page
fetch for the item does not raise, the job returns an outcome row. -/
theorem C1_exception_containment :
    (∀ (net : Net) (u dir : String) (st : St), net.page u ≠ .raise →
      ∃ st' row, job_download net u dir st = (st', .ok row)) ∧
    (∀ (net : Net) (u dir : String) (st st' : St) (e : Unit),
      job_download net u dir st = (st', .error e) → net.page u = .raise) := by
  constructor
  · intro net u dir st hp
    obtain ⟨st', row, heq, -, -⟩ := job_download_no_raise net u dir st hp
    exact ⟨st', row, heq⟩
  · intro net u dir st st' e h
    exact job_download_error net u dir st st' e h

/-- C1, witness: a concrete job whose page fetch does not raise returns
an outcome row. -/
theorem C1_witness :
    ∃ st' row, job_download netNoPdf exUrlA "out" ⟨[], 0⟩ = (st', .ok row) :=
  C1_exception_containment.1 netNoPdf exUrlA "out" ⟨[], 0⟩ (by decide)

/-- C2.  The fetcher never exposes a bad file at the destination path:
a failed HTTP status or a raised GET writes nothing at all; on any
failure the destination entry is exactly what it was before; on success
the destination holds the complete body of at least 1 KiB; and a full
body under 1 KiB is deleted from the temporary path and the operation
fails with the too-small error. -/
theorem C2_fetch_write_safety (res : GetPdfRes) (st : St) (out : String) :
    ((download_pdf res st out).2 = .ok () →
      ∃ n, 1024 ≤ n ∧ lookupFile (download_pdf res st out).1.docs out = some n) ∧
    (∀ e, (download_pdf res st out).2 = .error e →
      lookupFile (download_pdf res st out).1.docs out = lookupFile st.docs out) ∧
    ((res = .bad_status ∨ res = .conn_error) → (download_pdf res st out).1.docs = st.docs) ∧
    (∀ n, res = .full n → n < 1024 →
      (download_pdf res st out).2 = .error .tooSmall ∧
      lookupFile (download_pdf res st out).1.docs (out ++ ".part") = none) := by
  refine ⟨download_pdf_ok_dest res st out, download_pdf_error_dest res st out,
    download_pdf_nowrite res st out, ?_⟩
  intro n hres hn
  subst hres
  exact download_pdf_small st out n hn

/-- C2, witness: a 3-byte body fails with the too-small error and leaves
neither a destination file nor a temporary file; and in the concrete
direct-guess-tiny-then-fallback-valid scenario the job outcome is
`downloaded_fallback` with the valid document at the destination. -/
theorem C2_witness :
    (download_pdf (.full 3) ⟨[], 0⟩ "out/x.pdf").2 = .error .tooSmall ∧
    lookupFile (download_pdf (.full 3) ⟨[], 0⟩ "out/x.pdf").1.docs "out/x.pdf" = none ∧
    lookupFile (download_pdf (.full 3) ⟨[], 0⟩ "out/x.pdf").1.docs ("out/x.pdf" ++ ".part")
      = none ∧
    (job_download netSmallDirect exUrlA "out" ⟨[], 0⟩).2 =
      .ok ⟨exUrlA, "121", "https://static.even3.com/anais/9.pdf", "out/121 - A.pdf",
        "downloaded_fallback"⟩ ∧
    lookupFile (job_download netSmallDirect exUrlA "out" ⟨[], 0⟩).1.docs "out/121 - A.pdf"
      = some 5000 := by
  have h := C2_fetch_write_safety (.full 3) ⟨[], 0⟩ "out/x.pdf"
  have hsmall := h.2.2.2 3 rfl (by decide)
  refine ⟨hsmall.1, ?_, hsmall.2, by decide, by decide⟩
  have := h.2.1 .tooSmall hsmall.1
  simpa using this

/-- C3, counterexample.  There is a work URL and a network state for
which the job produces no status at all: the fallback page fetch raises
and the exception escapes `job_download`, so the outcome set is not
exhaustive over all executions. -/
theorem C3_counterexample :
    (job_download netPartial exUrlB "out" ⟨[], 0⟩).2 = .error () := by
  decide

/-- C3, amended.  Whenever the fallback page fetch does not raise, the
job returns exactly one status from the closed five-element set,
determined by the claim's table: non-empty existing file gives `exists`
with the state (hence the request counter) untouched; otherwise a
successful direct guess gives `downloaded_direct`; otherwise a failed
resolution gives `no_pdf`; otherwise fetch failure gives `error` and
fetch success gives `downloaded_fallback`. -/
theorem C3_status_determination (net : Net) (u dir : String) (st : St)
    (hp : net.page u ≠ .raise) :
    ∃ st' row, job_download net u dir st = (st', .ok row) ∧ row.work_url = u ∧
      row.status = detStatus net u dir st.docs ∧
      (row.status = "exists" ∨ row.status = "downloaded_direct" ∨
        row.status = "downloaded_fallback" ∨ row.status = "no_pdf" ∨ row.status = "error") ∧
      (fileNonempty st.docs (filePathOf dir u) = true → st' = st) := by
  obtain ⟨st', row, heq, hurl, hstat⟩ := job_download_no_raise net u dir st hp
  refine ⟨st', row, heq, hurl, hstat, (job_download_ok_facts net u dir st st' row heq).2.1, ?_⟩
  intro hex
  rw [job_download_exists net u dir st hex] at heq
  exact (congrArg Prod.fst heq).symm

/-- C3, witness: a concrete job with a loadable page and no resolvable
document URL returns the `no_pdf` status of the determination table. -/
theorem C3_witness :
    ∃ st' row, job_download netNoPdf exUrlB "out" ⟨[], 0⟩ = (st', .ok row) ∧
      row.status = "no_pdf" := by
  obtain ⟨st', row, heq, -, hstat, -, -⟩ :=
    C3_status_determination netNoPdf exUrlB "out" ⟨[], 0⟩ (by decide)
  refine ⟨st', row, heq, ?_⟩
  rw [hstat]
  decide

/-- C4, counterexample.  With an unchanged source in which one item has
no resolvable document, the first run records `no_pdf` and leaves no
file, so the second run against the same output directory repeats the
result: its outcome is `no_pdf`, not `exists`, and it issues two network
requests (direct guess and page fetch), not zero. -/
theorem C4_counterexample :
    App_worker netNoPdf "out" [exUrlA] (fun _ => true)
        (App_worker netNoPdf "out" [exUrlA] (fun _ => true) ⟨[], none⟩).disk =
      ⟨⟨[], some [⟨exUrlA, "121", "", "", "no_pdf"⟩]⟩, 2, .completed⟩ := by
  decide

/-- C4, amended.  If the first run is never cancelled and every item
reaches a file-producing outcome (`exists`, `downloaded_direct` or
`downloaded_fallback`), then the second run over the same output
directory reports `exists` for every item, issues zero network
requests, leaves the files untouched and completes. -/
theorem C4_resume_idempotence (net : Net) (dir : String) (urls : List String)
    (running : Nat → Bool) (d : DiskState)
    (hrun : ∀ i, running i = true)
    (hok : (runJobs net dir urls ⟨d.docs, 0⟩).2.all rowOkSuccess = true) :
    App_worker net dir urls running (App_worker net dir urls running d).disk =
      ⟨⟨(App_worker net dir urls running d).disk.docs, some (urls.map (existsRow dir))⟩,
        0, .completed⟩ := by
  have hfiles : ∀ u ∈ urls,
      fileNonempty (runJobs net dir urls ⟨d.docs, 0⟩).1.docs (filePathOf dir u) = true :=
    runJobs_success_files net dir urls ⟨d.docs, 0⟩ hok
  rw [App_worker_eq net dir urls running d, App_worker_eq]
  simp only
  rw [runJobs_resume net dir urls ⟨(runJobs net dir urls ⟨d.docs, 0⟩).1.docs, 0⟩
    (fun u hu => hfiles u hu)]
  rw [consume_all_ok running hrun _ 0 (all_isOkB_map_ok dir urls)]
  rw [filterMap_okPart_map_ok dir urls]

/-- C4, witness: a concrete all-successful first run makes the second
run an all-`exists`, zero-request no-op. -/
theorem C4_witness :
    App_worker netAllOk "out" [exUrlA] (fun _ => true)
        (App_worker netAllOk "out" [exUrlA] (fun _ => true) ⟨[], none⟩).disk =
      ⟨⟨(App_worker netAllOk "out" [exUrlA] (fun _ => true) ⟨[], none⟩).disk.docs,
        some ([exUrlA].map (existsRow "out"))⟩, 0, .completed⟩ :=
  C4_resume_idempotence netAllOk "out" [exUrlA] (fun _ => true) ⟨[], none⟩
    (fun _ => rfl) (by decide)

/-- C5, counterexample.  A run that is never cancelled can end with
fewer manifest rows than submitted work URLs: with two URLs where the
second item's page fetch raises, the run aborts after writing one row. -/
theorem C5_counterexample :
    App_worker netPartial "out" [exUrlA, exUrlB] (fun _ => true) ⟨[], none⟩ =
      ⟨⟨[("out/121 - A.pdf", 2000)],
        some [⟨exUrlA, "121", "https://static.even3.com/anais/121.pdf", "out/121 - A.pdf",
          "downloaded_direct"⟩]⟩, 3, .aborted⟩ := by
  decide

/-- C5, amended.  If the run is never cancelled and additionally no job
raises an escaping exception, the manifest holds exactly one row per
submitted work URL, in completion order, with no duplicates and no
omissions, and the run completes. -/
theorem C5_manifest_completeness (net : Net) (dir : String) (urls : List String)
    (running : Nat → Bool) (d : DiskState)
    (hnodup : urls.Nodup)
    (hrun : ∀ i, running i = true)
    (hok : (runJobs net dir urls ⟨d.docs, 0⟩).2.all isOkB = true) :
    ∃ rows, (App_worker net dir urls running d).disk.manifestFile = some rows ∧
      (App_worker net dir urls running d).endState = .completed ∧
      rows.length = urls.length ∧
      rows.map Row.work_url = urls ∧
      (rows.map Row.work_url).Nodup := by
  rw [App_worker_eq]
  rw [consume_all_ok running hrun _ 0 hok]
  have hmap := runJobs_all_ok_urls net dir urls ⟨d.docs, 0⟩ hok
  refine ⟨_, rfl, rfl, ?_, hmap, by rw [hmap]; exact hnodup⟩
  have := congrArg List.length hmap
  simpa using this

/-- C5, witness: a concrete never-cancelled, exception-free run over two
work URLs produces exactly two rows, one per URL. -/
theorem C5_witness :
    ∃ rows, (App_worker netAllOk "out" [exUrlA, exUrlB] (fun _ => true)
        ⟨[], none⟩).disk.manifestFile = some rows ∧
      (App_worker netAllOk "out" [exUrlA, exUrlB] (fun _ => true) ⟨[], none⟩).endState
        = .completed ∧
      rows.length = [exUrlA, exUrlB].length ∧
      rows.map Row.work_url = [exUrlA, exUrlB] ∧
      (rows.map Row.work_url).Nodup :=
  C5_manifest_completeness netAllOk "out" [exUrlA, exUrlB] (fun _ => true) ⟨[], none⟩
    (by decide) (fun _ => rfl) (by decide)

/-- C6, counterexample.  All jobs are submitted to the executor before
the loop starts, and a cancellation observed at the first completion
boundary loses the row of a job that was dispatched and completed: with
one URL and the flag already cleared, the job runs (its download is on
disk and its result was produced) but zero rows are written, where the
claim requires at least K = 1. -/
theorem C6_counterexample :
    App_worker netAllOk "out" [exUrlA] (fun _ => false) ⟨[], none⟩ =
      ⟨⟨[("out/121 - A.pdf", 2000)], some []⟩, 1, .cancelled⟩ ∧
    (runJobs netAllOk "out" [exUrlA] ⟨[], 0⟩).2 =
      [.ok ⟨exUrlA, "121", "https://static.even3.com/anais/121.pdf", "out/121 - A.pdf",
        "downloaded_direct"⟩] := by
  decide

/-- C6, amended.  Every submitted job runs to completion regardless of
the flag, and the loop stops consuming at the first iteration that
observes the flag cleared: if the flag is first observed cleared at
completion boundary `j` (with `j` before the end of the run and no job
raising), the manifest holds exactly the `j` rows consumed before that
point and the run ends cancelled — rows of later completions are lost,
so the row count ranges over 0..N rather than K..N. -/
theorem C6_cancellation (net : Net) (dir : String) (urls : List String)
    (running : Nat → Bool) (d : DiskState) (j : Nat)
    (hlt : ∀ k, k < j → running k = true) (hj : running j = false)
    (hlen : j < urls.length)
    (hok : (runJobs net dir urls ⟨d.docs, 0⟩).2.all isOkB = true) :
    ∃ rows, (App_worker net dir urls running d).disk.manifestFile = some rows ∧
      (App_worker net dir urls running d).endState = .cancelled ∧
      rows.length = j := by
  rw [App_worker_eq]
  rw [consume_cancel running (runJobs net dir urls ⟨d.docs, 0⟩).2 0 j
    (fun k hk => by simpa using hlt k hk) (by simpa using hj)
    (by rw [runJobs_length]; exact hlen) hok]
  refine ⟨_, rfl, rfl, ?_⟩
  rw [filterMap_okPart_length _ (all_take _ j hok), List.length_take, runJobs_length]
  omega

/-- C6, witness: with two always-successful jobs and the flag cleared
after the first completion, exactly one row is written and the run is
cancelled. -/
theorem C6_witness :
    ∃ rows, (App_worker netAllOk "out" [exUrlA, exUrlB] (fun i => i == 0)
        ⟨[], none⟩).disk.manifestFile = some rows ∧
      (App_worker netAllOk "out" [exUrlA, exUrlB] (fun i => i == 0) ⟨[], none⟩).endState
        = .cancelled ∧
      rows.length = 1 :=
  C6_cancellation netAllOk "out" [exUrlA, exUrlB] (fun i => i == 0) ⟨[], none⟩ 1
    (fun k hk => by
      have hk0 : k = 0 := by omega
      simp [hk0])
    rfl (by simp) (by decide)

/-- C7.  The harvesting loop stops either when the next-page control
cannot be clicked or after five consecutive iterations with no new
links, and returns the query-stripped deduplicated links sorted: on the
simulated three-page site with ten unique links per page and a dead
next control on page 3 it returns exactly the 30 distinct, sorted work
URLs for any remaining fuel (so it does not loop indefinitely), and on
a site whose next control never leaves the page the stall guard stops
it with the ten links of that page. -/
theorem C7_harvest_convergence :
    (∀ fuel, collect_work_urls_with_playwright "ev" site30 (fuel + 3) = some expected30) ∧
    expected30.length = 30 ∧ expected30.Nodup ∧
    List.Pairwise (fun a b => strLe a b = true) expected30 ∧
    (∀ fuel, collect_work_urls_with_playwright "ev" siteStall (fuel + 6) = some expectedStall) := by
  exact ⟨fun fuel => rfl, by decide, by decide, by decide, fun fuel => rfl⟩

/-- C10.  Each run truncates the manifest file before any job is
consumed: the run result is independent of whatever manifest a previous
run left, the truncating open resets the manifest to empty while
touching no document file, a run over zero URLs still leaves an empty
manifest with the document files unchanged, and every non-empty
document file present before the run is still non-empty after it. -/
theorem C10_manifest_truncation (net : Net) (dir : String) (urls : List String)
    (running : Nat → Bool) (d : DiskState) (m : Option (List Row)) :
    App_worker net dir urls running { d with manifestFile := m } =
      App_worker net dir urls running d ∧
    (openManifestW d).docs = d.docs ∧
    (openManifestW d).manifestFile = some [] ∧
    App_worker net dir [] running d = ⟨⟨d.docs, some []⟩, 0, .completed⟩ ∧
    (∀ a, fileNonempty d.docs (a ++ ".pdf") = true →
      fileNonempty (App_worker net dir urls running d).disk.docs (a ++ ".pdf") = true) := by
  refine ⟨rfl, rfl, rfl, rfl, ?_⟩
  intro a ha
  rw [App_worker_eq]
  exact runJobs_preserves_pdf net dir urls ⟨d.docs, 0⟩ a ha

/-- C10, witness: a previously downloaded document file survives a full
run over the same output directory. -/
theorem C10_witness :
    fileNonempty (App_worker netAllOk "out" [exUrlA] (fun _ => true)
      ⟨[("keep.pdf", 5)], some []⟩).disk.docs ("keep" ++ ".pdf") = true :=
  (C10_manifest_truncation netAllOk "out" [exUrlA] (fun _ => true)
    ⟨[("keep.pdf", 5)], some []⟩ none).2.2.2.2 "keep" (by decide)

/-- C8.  On the URL whose last path segment is
`528929-ELES-NAO-TEM--MEDO` the id extraction returns `528929` as the
claim states, but the title heuristic returns `ELES NAO TEM MEDO`, not
`ELES NAO TEM - MEDO`: the doubled-hyphen replacement is immediately
clobbered by the following hyphen-to-space replacement. -/
theorem C8_title_and_id_eval :
    guess_title_from_work_url c8url = "ELES NAO TEM MEDO" ∧
    guess_title_from_work_url c8url ≠ "ELES NAO TEM - MEDO" ∧
    work_id_from_url c8url = "528929" := by
  decide

/-- C9, counterexample.  The claim quantifies over every `maxLen`, but
at `maxLen = 0` (with any non-empty input that survives sanitising) the
truncation step returns the empty string, contradicting the never-empty
guarantee. -/
theorem C9_counterexample : safe_filename "ab" 0 = "" := by
  decide

/-- C9, amended.  For every input string and every `maxLen` of at least
one (which includes the default 140), `safe_filename` returns a string
with none of the nine forbidden characters, of length at most `maxLen`,
and non-empty. -/
theorem C9_safe_filename_props (s : String) (m : Int) (hm : 1 ≤ m) :
    (∀ c ∈ (safe_filename s m).data, illegalChar c = false) ∧
    ((safe_filename s m).length : Int) ≤ m ∧
    safe_filename s m ≠ "" := by
  have hrw : safe_filename s m = String.mk
      (if (((if (pyStrip isPySpace (collapseRuns isPySpace ' ' false
              (collapseRuns illegalChar '_' false s.data))).isEmpty
            then "arquivo".data
            else pyStrip isPySpace (collapseRuns isPySpace ' ' false
              (collapseRuns illegalChar '_' false s.data))).length : Int)) > m
       then pyRstrip isPySpace (pySlice
            (if (pyStrip isPySpace (collapseRuns isPySpace ' ' false
                (collapseRuns illegalChar '_' false s.data))).isEmpty
             then "arquivo".data
             else pyStrip isPySpace (collapseRuns isPySpace ' ' false
               (collapseRuns illegalChar '_' false s.data))) m)
       else (if (pyStrip isPySpace (collapseRuns isPySpace ' ' false
              (collapseRuns illegalChar '_' false s.data))).isEmpty
            then "arquivo".data
            else pyStrip isPySpace (collapseRuns isPySpace ' ' false
              (collapseRuns illegalChar '_' false s.data)))) := rfl
  set A := pyStrip isPySpace (collapseRuns isPySpace ' ' false
    (collapseRuns illegalChar '_' false s.data)) with hA
  set L3 := if A.isEmpty then "arquivo".data else A with hL3
  have harq : ∀ x ∈ "arquivo".data, illegalChar x = false := by decide
  have hmemA : ∀ c ∈ A, illegalChar c = false := by
    intro c hc
    rw [hA] at hc
    have h1 := mem_pyStrip isPySpace _ c hc
    rcases mem_collapseRuns isPySpace ' ' false _ c h1 with h2 | ⟨-, h2⟩
    · subst h2; decide
    · rcases mem_collapseRuns illegalChar '_' false _ c h2 with h3 | ⟨h3, -⟩
      · subst h3; decide
      · exact h3
  have hmem3 : ∀ c ∈ L3, illegalChar c = false := by
    intro c hc
    rw [hL3] at hc
    by_cases he : A.isEmpty
    · rw [if_pos he] at hc
      exact harq c hc
    · rw [if_neg he] at hc
      exact hmemA c hc
  have hhead3 : ∃ c cs, L3 = c :: cs ∧ isPySpace c = false := by
    by_cases he : A.isEmpty
    · exact ⟨'a', "rquivo".data, by rw [hL3, if_pos he], by decide⟩
    · rcases hA2 : A with _ | ⟨c, cs⟩
      · rw [hA2] at he
        simp at he
      · refine ⟨c, cs, by rw [hL3, if_neg he, hA2], ?_⟩
        exact pyStrip_head isPySpace _ c cs (by rw [← hA, hA2])
  refine ⟨?_, ?_, ?_⟩
  · intro c hc
    rw [hrw] at hc
    exact hmem3 c (mem_trunc L3 m c hc)
  · rw [hrw]
    exact trunc_length_le L3 m (by omega)
  · rw [hrw]
    intro hcon
    exact trunc_ne_nil L3 m hm hhead3 (congrArg String.data hcon)

/-- C9, witness: the guarantees hold at a concrete input containing
several forbidden characters at the default length limit. -/
theorem C9_witness :
    (∀ c ∈ (safe_filename "a\\b:*?" 140).data, illegalChar c = false) ∧
    ((safe_filename "a\\b:*?" 140).length : Int) ≤ 140 ∧
    safe_filename "a\\b:*?" 140 ≠ "" :=
  C9_safe_filename_props "a\\b:*?" 140 (by omega)

end Even3
